import Mathlib

/-!
# Verification of skorch scoring callbacks (`skorch/callbacks/scoring.py`)

Shallow embedding of the prediction-caching context manager
(`cache_net_infer`), the best-score tracker (`ScoringBase`), and the two
scoring strategies (`BatchScoring`, `EpochScoring`).

Conventions of the embedding:
* prediction objects are modelled as rationals (`Pred := ℚ`); only their
  identity and order matter to the code under verification;
* target arrays are modelled as lists of rationals (`Target := List ℚ`);
  `np.concatenate` becomes `List.flatten`;
* scores are rationals;
* the external scorer (`check_scoring` / `_score`) is an opaque
  collaborator: its result for a given call is passed in as a parameter,
  as either a value or a raised exception;
* Python in-place mutation of the net is modelled by explicit state
  passing; a raised exception is an `Option Exc` component travelling
  next to the mutated state.
-/

set_option autoImplicit false

namespace SkorchScoring

/-- Prediction objects (`y_pred`); opaque to the scoring code. -/
abbrev Pred := ℚ

/-- Target arrays (`y`); `np.concatenate` on them is `List.flatten`. -/
abbrev Target := List ℚ

/-- Exceptions that the modelled collaborators can raise. -/
inductive Exc where
  | keyError
  | otherError
deriving DecidableEq, Repr

/-- Values stored in the history: scalar scores or booleans. -/
inductive HVal where
  | q (x : ℚ)
  | b (x : Bool)
deriving DecidableEq, Repr

/-- Modelled from the spec: one batch slot of the history — keyed,
append-only entries scoped to this batch. -/
structure BatchRec where
  entries : List (String × HVal)
deriving DecidableEq, Repr

/-- Modelled from the spec: one epoch of the history — keyed epoch-level
entries plus the ordered list of batch slots. -/
structure EpochRec where
  recs : List (String × HVal)
  batches : List BatchRec
deriving DecidableEq, Repr

/-- Modelled from the spec: the run history, an append-only structured
log of epochs (the `net.history` collaborator, not part of `src/`). -/
structure History where
  epochs : List EpochRec
deriving DecidableEq, Repr

/-- Apply `f` to the last element of a list, if any. -/
def modifyLast {α : Type} (f : α → α) : List α → List α
  | [] => []
  | [x] => [f x]
  | x :: y :: xs => x :: modifyLast f (y :: xs)

namespace History

/-- Modelled from the spec: the training loop opens a fresh epoch slot. -/
def newEpoch (h : History) : History :=
  ⟨h.epochs ++ [⟨[], []⟩]⟩

/-- Modelled from the spec: the training loop opens a fresh batch slot in
the current epoch. -/
def newBatch (h : History) : History :=
  ⟨modifyLast (fun e => ⟨e.recs, e.batches ++ [⟨[]⟩]⟩) h.epochs⟩

/-- Modelled from the spec: `history.record(name, value)` — record a value
under a name scoped to the current epoch (append-only). -/
def record (h : History) (k : String) (v : HVal) : History :=
  ⟨modifyLast (fun e => ⟨e.recs ++ [(k, v)], e.batches⟩) h.epochs⟩

/-- Modelled from the spec: `history.record_batch(name, value)` — record a
value under a name scoped to the current batch of the current epoch. -/
def recordBatch (h : History) (k : String) (v : HVal) : History :=
  ⟨modifyLast
    (fun e => ⟨e.recs, modifyLast (fun b => ⟨b.entries ++ [(k, v)]⟩) e.batches⟩)
    h.epochs⟩

/-- The last element of a list, if any. -/
def lastOf {α : Type} : List α → Option α
  | [] => none
  | [x] => some x
  | _ :: y :: xs => lastOf (y :: xs)

/-- The current (last) epoch of the history, if any. -/
def lastEpoch (h : History) : Option EpochRec :=
  lastOf h.epochs

/-- Modelled from the spec: `history[-1, 'batches', :, key]` — all batch
values recorded under `key` in the current epoch; a lookup failure
(`KeyError`, here `none`) if the name was never recorded this epoch. -/
def batchValues (h : History) (k : String) : Option (List HVal) :=
  match h.lastEpoch with
  | none => none
  | some e =>
    let vs := e.batches.filterMap (fun b => b.entries.lookup k)
    if vs.isEmpty then none else some vs

/-- Modelled from the spec: `history[-1, 'batches', :, [k1, k2]]` — for
each batch of the current epoch holding numeric values under both keys,
the pair of those values (batch size paired with score). -/
def batchPairs (h : History) (k1 k2 : String) : List (ℚ × ℚ) :=
  match h.lastEpoch with
  | none => []
  | some e =>
    e.batches.filterMap (fun b =>
      match b.entries.lookup k1, b.entries.lookup k2 with
      | some (.q w), some (.q s) => some (w, s)
      | _, _ => none)

/-- Epoch-level values recorded under `k`, one lookup per epoch. -/
def epochValues (h : History) (k : String) : List HVal :=
  h.epochs.filterMap (fun e => e.recs.lookup k)

/-- No entry anywhere in the history (epoch- or batch-level) uses key `k`. -/
def hasNoKey (h : History) (k : String) : Prop :=
  ∀ e ∈ h.epochs, e.recs.lookup k = none ∧
    ∀ b ∈ e.batches, b.entries.lookup k = none

instance (h : History) (k : String) : Decidable (h.hasNoKey k) := by
  unfold History.hasNoKey; infer_instance

end History

/-- The model (`skorch.NeuralNet`) as the scoring code sees it: its
history, its instance-attribute dictionary entry for `infer` (the
installed override of `cache_net_infer`, holding the not-yet-replayed
cached predictions of the iterator), and its original bound `infer`
method. -/
structure Net where
  history : History
  inferDict : Option (List Pred)
  origInfer : ℚ → Pred

/-- One invocation of `net.infer`: the instance-attribute override (when
installed) returns `next(y_preds)` — the next cached prediction,
arguments ignored, `StopIteration` (`none`) when exhausted; otherwise the
original bound method runs on the argument. -/
def Net.callInfer (net : Net) (arg : ℚ) : Option (Pred × Net) :=
  match net.inferDict with
  | some [] => none
  | some (p :: rest) => some (p, { net with inferDict := some rest })
  | none => some (net.origInfer arg, net)

/-- Invoke `net.infer` once per argument in `args`, collecting results;
fails if any invocation fails. -/
def Net.callInferN (net : Net) : List ℚ → Option (List Pred × Net)
  | [] => some ([], net)
  | a :: args => do
    let (p, net1) ← net.callInfer a
    let (ps, net2) ← net1.callInferN args
    pure (p :: ps, net2)

/-- Entering `cache_net_infer(net, use_caching, y_preds)`: when caching is
enabled, `net.infer = lambda *a, **kw: next(y_preds)` installs the replay
override; otherwise the net is yielded unchanged. -/
def cacheNetInferEnter (net : Net) (useCaching : Bool) (yPreds : List Pred) : Net :=
  if useCaching then { net with inferDict := some yPreds } else net

/-- Leaving `cache_net_infer` (the `finally` block): when caching was
enabled, `del net.__dict__['infer']` removes the override
unconditionally; otherwise nothing was installed and nothing happens. -/
def cacheNetInferExit (net : Net) (useCaching : Bool) : Net :=
  if useCaching then { net with inferDict := none } else net

theorem callInferN_replays (preds : List Pred) :
    ∀ (net : Net) (args : List ℚ), args.length = preds.length →
      net.inferDict = some preds →
      Net.callInferN net args = some (preds, { net with inferDict := some [] }) := by
  induction preds with
  | nil =>
    intro net args hlen hdict
    cases args with
    | nil => simp [Net.callInferN]; cases net; simp_all
    | cons a as => simp at hlen
  | cons p rest ih =>
    intro net args hlen hdict
    cases args with
    | nil => simp at hlen
    | cons a as =>
      simp only [Net.callInferN, Net.callInfer, hdict]
      have h1 := ih { net with inferDict := some rest } as (by simpa using hlen) rfl
      simp [h1]

end SkorchScoring

namespace SkorchScoring

/-- A single `infer` invocation never changes the history or the original
bound method (it at most consumes one cached prediction). -/
theorem callInfer_preserves (m : Net) (a : ℚ) (p : Pred) (m1 : Net)
    (h : m.callInfer a = some (p, m1)) :
    m1.history = m.history ∧ m1.origInfer = m.origInfer := by
  simp only [Net.callInfer] at h
  cases hd : m.inferDict with
  | none => rw [hd] at h; simp at h; simp [← h.2]
  | some l =>
    cases l with
    | nil => rw [hd] at h; simp at h
    | cons x xs => rw [hd] at h; simp at h; simp [← h.2]

/-- A run of `infer` invocations never changes the history or the
original bound method. -/
theorem callInferN_preserves (bs : List ℚ) : ∀ (m : Net) (r : List Pred) (m' : Net),
    Net.callInferN m bs = some (r, m') →
    m'.history = m.history ∧ m'.origInfer = m.origInfer := by
  induction bs with
  | nil => intro m r m' h; simp [Net.callInferN] at h; simp [h.2]
  | cons b bs ih =>
    intro m r m' h
    simp only [Net.callInferN, Option.bind_eq_bind] at h
    match h1 : m.callInfer b with
    | none => rw [h1] at h; simp at h
    | some (p, m1) =>
      rw [h1] at h
      simp only [Option.some_bind] at h
      match h2 : Net.callInferN m1 bs with
      | none => rw [h2] at h; simp at h
      | some (ps, m2) =>
        rw [h2] at h
        simp at h
        have hm1 := callInfer_preserves m b p m1 h1
        have := ih m1 ps m2 h2
        rw [← h.2]
        exact ⟨hm1.1 ▸ this.1, hm1.2 ▸ this.2⟩

/-- When no override is installed, `infer` runs never mutate the net. -/
theorem callInferN_no_override (bs : List ℚ) : ∀ (m : Net), m.inferDict = none →
    ∀ (r : List Pred) (m' : Net), Net.callInferN m bs = some (r, m') → m' = m := by
  induction bs with
  | nil => intro m _ r m' h; simp [Net.callInferN] at h; exact h.2.symm
  | cons b bs ih =>
    intro m hnone r m' h
    simp only [Net.callInferN, Net.callInfer, hnone, Option.bind_eq_bind,
      Option.some_bind] at h
    match h2 : Net.callInferN m bs with
    | none => rw [h2] at h; simp at h
    | some (ps, m2) =>
      rw [h2] at h
      simp at h
      exact h.2 ▸ ih m hnone ps m2 h2

/-- For C1: after entering the guard and making any number of infer
calls, exiting restores the net exactly (the `finally` of
`cache_net_infer` deletes the override whatever happened inside). -/
theorem exit_restores (net : Net) (useCaching : Bool) (yPreds : List Pred)
    (hnone : net.inferDict = none) (args : List ℚ) (res : List Pred) (net' : Net) :
    (cacheNetInferEnter net useCaching yPreds).callInferN args = some (res, net') →
    cacheNetInferExit net' useCaching = net := by
  intro hrun
  cases useCaching with
  | false =>
    simp only [cacheNetInferEnter, Bool.false_eq_true, if_false] at hrun
    simp only [cacheNetInferExit, Bool.false_eq_true, if_false]
    exact callInferN_no_override args net hnone res net' hrun
  | true =>
    simp only [cacheNetInferExit, if_true]
    simp only [cacheNetInferEnter, if_true] at hrun
    have := callInferN_preserves args _ res net' hrun
    cases net' with
    | mk h d f =>
      cases net with
      | mk h0 d0 f0 =>
        simp_all

/-- C1: guarding with caching enabled and invoking `infer` exactly `N`
times (arguments ignored) returns exactly the `N` cached predictions in
order, and every exit from the scope — after any number of invocations,
as on an exception path — removes the override so the prediction
operation is identically the original one. -/
theorem c1_cache_transparency (h : History) (f : ℚ → Pred)
    (preds : List Pred) (args : List ℚ) (hlen : args.length = preds.length) :
    (∃ net', Net.callInferN (cacheNetInferEnter ⟨h, none, f⟩ true preds) args
        = some (preds, net') ∧ cacheNetInferExit net' true = ⟨h, none, f⟩) ∧
    (∀ (partialArgs : List ℚ) (res : List Pred) (net'' : Net),
        Net.callInferN (cacheNetInferEnter ⟨h, none, f⟩ true preds) partialArgs
          = some (res, net'') →
        cacheNetInferExit net'' true = ⟨h, none, f⟩) := by
  constructor
  · refine ⟨{ history := h, inferDict := some [], origInfer := f }, ?_, rfl⟩
    exact callInferN_replays preds _ args hlen (by simp [cacheNetInferEnter])
  · intro partialArgs res net'' hrun
    exact exit_restores ⟨h, none, f⟩ true preds rfl partialArgs res net'' hrun

/-! ## Scoring strategies -/

/-- The `scoring` constructor argument: `None`, a metric name, a
`functools.partial` (carrying its wrapped function's `__name__`), or any
other callable (carrying its `__name__`). -/
inductive ScoringSpec where
  | noSpec
  | str (s : String)
  | partialFn (funcName : String)
  | callable (funcName : String)
deriving DecidableEq, Repr

/-- Extended rationals: scores together with `np.inf` and `-np.inf`. -/
inductive XR where
  | ninf
  | fin (q : ℚ)
  | pinf
deriving DecidableEq, Repr

/-- The IEEE `<` on extended values as numpy compares them. -/
def XR.lt : XR → XR → Bool
  | .ninf, .ninf => false
  | .ninf, _ => true
  | .fin _, .ninf => false
  | .fin a, .fin b => decide (a < b)
  | .fin _, .pinf => true
  | .pinf, _ => false

/-- The constructor arguments shared by both strategies
(`ScoringBase.__init__`); `target_extractor` and the mutable state live
in the per-strategy structures. -/
structure ScoringArgs where
  scoring : ScoringSpec
  lowerIsBetter : Option Bool := some true
  onTrain : Bool := false
  name : Option String := none
  useCaching : Bool := true
deriving DecidableEq, Repr

/-- `ScoringBase._get_name`: the explicit name if given, else a name
derived from the scoring specification. -/
def ScoringBase._get_name (self : ScoringArgs) : String :=
  match self.name with
  | some n => n
  | none =>
    match self.scoring with
    | .noSpec => "score"
    | .str s => s
    | .partialFn f => f
    | .callable f => f

/-- `self.best_score_ = np.inf if self.lower_is_better else -np.inf`
(Python truthiness: both `False` and `None` select `-np.inf`). -/
def initBestScore (lowerIsBetter : Option Bool) : XR :=
  match lowerIsBetter with
  | some true => .pinf
  | _ => .ninf

/-- `ScoringBase._is_best_score`: `None` when comparison is disabled,
otherwise the strict comparison in the configured direction. -/
def ScoringBase._is_best_score (lowerIsBetter : Option Bool) (best : XR)
    (current : ℚ) : Option Bool :=
  match lowerIsBetter with
  | none => none
  | some true => some ((XR.fin current).lt best)
  | some false => some (best.lt (XR.fin current))

/-- `np.average(scores, weights=weights)`: the weighted mean
`Σ wᵢ·sᵢ / Σ wᵢ`. -/
def np_average (scores weights : List ℚ) : ℚ :=
  (List.zipWith (· * ·) weights scores).sum / weights.sum

/-- The `BatchScoring` callback: configuration, resolved name, and the
running best score. -/
structure BatchScoring where
  lowerIsBetter : Option Bool
  onTrain : Bool
  useCaching : Bool
  name_ : String
  bestScore : XR
deriving DecidableEq, Repr

/-- `ScoringBase.initialize` for `BatchScoring`. -/
def BatchScoring.initializeCb (args : ScoringArgs) : BatchScoring :=
  { lowerIsBetter := args.lowerIsBetter
    onTrain := args.onTrain
    useCaching := args.useCaching
    name_ := ScoringBase._get_name args
    bestScore := initBestScore args.lowerIsBetter }

/-- `BatchScoring.on_batch_end`: skip on phase mismatch; otherwise guard
the net with the one-element replay sequence, run the scorer (opaque —
its outcome is the `scoreRes` argument), record its score for this
batch, swallowing a `KeyError`; the `finally` of the guard restores the
net on every path. Returns the mutated net and the propagated
exception, if any. -/
def BatchScoring.on_batch_end (self : BatchScoring) (net : Net)
    (training : Bool) (y_pred : Pred) (scoreRes : Except Exc ℚ) :
    Net × Option Exc :=
  if training != self.onTrain then (net, none)
  else
    let cached_net := cacheNetInferEnter net self.useCaching [y_pred]
    match scoreRes with
    | .ok score =>
      (cacheNetInferExit
          { cached_net with
            history := cached_net.history.recordBatch self.name_ (.q score) }
          self.useCaching,
        none)
    | .error .keyError => (cacheNetInferExit cached_net self.useCaching, none)
    | .error e => (cacheNetInferExit cached_net self.useCaching, some e)

/-- `BatchScoring.get_avg_score`: batch sizes paired with batch scores
from the current epoch, averaged with sizes as weights. -/
def BatchScoring.get_avg_score (self : BatchScoring) (history : History) : ℚ :=
  let bs_key := if self.onTrain then "train_batch_size" else "valid_batch_size"
  let rows := history.batchPairs bs_key self.name_
  np_average (rows.map Prod.snd) (rows.map Prod.fst)

/-- `BatchScoring.on_epoch_end`: no-op when no batch score was recorded
under the callback's name this epoch; otherwise record the weighted
average, ask the tracker, update the running best on improvement, and
record the is-best flag when comparison is enabled. -/
def BatchScoring.on_epoch_end (self : BatchScoring) (net : Net) :
    BatchScoring × Net :=
  let history := net.history
  match history.batchValues self.name_ with
  | none => (self, net)
  | some _ =>
    let score_avg := self.get_avg_score history
    let is_best := ScoringBase._is_best_score self.lowerIsBetter self.bestScore score_avg
    let self' :=
      if is_best = some true then { self with bestScore := .fin score_avg } else self
    let h1 := history.record self.name_ (.q score_avg)
    let h2 :=
      match is_best with
      | some b => h1.record (self.name_ ++ "_best") (.b b)
      | none => h1
    (self', { net with history := h2 })

/-- Modelled from the spec: the dataset collaborator for one phase. A
skorch `Dataset` carries an optional target array (`ds.y`); any other
dataset is opaque and yields no targets via `data_from_dataset`. -/
inductive DS where
  | skorch (y : Option Target)
  | raw
deriving DecidableEq, Repr

/-- The `EpochScoring` callback: configuration, resolved name, running
best score, and the per-epoch caches. -/
structure EpochScoring where
  lowerIsBetter : Option Bool
  onTrain : Bool
  useCaching : Bool
  name_ : String
  target_extractor : Target → Target
  bestScore : XR
  y_trues_ : List Target
  y_preds_ : List Pred
  y_is_placeholder_ : Bool

/-- `EpochScoring._initialize_cache`: empty both cache sequences. -/
def EpochScoring._initialize_cache (self : EpochScoring) : EpochScoring :=
  { self with y_trues_ := [], y_preds_ := [] }

/-- `ScoringBase.initialize` + `EpochScoring.initializeCb`. -/
def EpochScoring.initializeCb (args : ScoringArgs) (tex : Target → Target) :
    EpochScoring :=
  { lowerIsBetter := args.lowerIsBetter
    onTrain := args.onTrain
    useCaching := args.useCaching
    name_ := ScoringBase._get_name args
    target_extractor := tex
    bestScore := initBestScore args.lowerIsBetter
    y_trues_ := []
    y_preds_ := []
    y_is_placeholder_ := false }

/-- `EpochScoring.on_epoch_begin`: reset the caches and record whether
the active phase's dataset declares placeholder targets
(`isinstance(ds, Dataset) and ds.y is None`). -/
def EpochScoring.on_epoch_begin (self : EpochScoring)
    (dataset_train dataset_valid : Option DS) : EpochScoring :=
  let self := self._initialize_cache
  let ds := if self.onTrain then dataset_train else dataset_valid
  { self with
    y_is_placeholder_ := match ds with | some (.skorch none) => true | _ => false }

/-- `EpochScoring.on_batch_end`: only with caching enabled and a phase
match; append the raw target (unless placeholder) and the prediction to
this instance's caches. -/
def EpochScoring.on_batch_end (self : EpochScoring) (y : Target)
    (y_pred : Pred) (training : Bool) : EpochScoring :=
  if !self.useCaching || training != self.onTrain then self
  else
    let self :=
      if !self.y_is_placeholder_ then { self with y_trues_ := self.y_trues_ ++ [y] }
      else self
    { self with y_preds_ := self.y_preds_ ++ [y_pred] }

/-- The arguments the epoch-end scoring call receives: the accumulated
target value and the replay sequence installed in the guard. -/
structure EpochScoreCall where
  y_test : Option Target
  y_pred : List Pred
deriving DecidableEq, Repr

/-- `EpochScoring.on_epoch_end`: resolve `(X_test, y_test, y_pred)` along
the caching or the non-caching path, no-op when `X_test` is absent,
otherwise score through the guard (the opaque scorer's result is the
`score` argument), record the scalar, and — when comparison is enabled —
record the is-best flag and update the running best. Also returns the
scoring call actually made, if any. -/
def EpochScoring.on_epoch_end (self : EpochScoring) (net : Net)
    (dataset_train dataset_valid : Option DS) (score : ℚ) :
    EpochScoring × Net × Option EpochScoreCall :=
  let dataset := if self.onTrain then dataset_train else dataset_valid
  let args : Bool × Option Target × List Pred :=
    if self.useCaching then
      let y_test := self.y_trues_.map self.target_extractor
      (dataset.isSome, if y_test.isEmpty then none else some y_test.flatten,
        self.y_preds_)
    else
      match dataset with
      | some (.skorch y) => (true, y.map self.target_extractor, [])
      | some .raw => (true, none, [])
      | none => (false, none, [])
  match args with
  | (false, _, _) => (self, net, none)
  | (true, y_test, y_pred) =>
    let cached_net := cacheNetInferEnter net self.useCaching y_pred
    let h1 := cached_net.history.record self.name_ (.q score)
    let is_best := ScoringBase._is_best_score self.lowerIsBetter self.bestScore score
    match is_best with
    | none =>
      (self, cacheNetInferExit { cached_net with history := h1 } self.useCaching,
        some ⟨y_test, y_pred⟩)
    | some b =>
      let h2 := h1.record (self.name_ ++ "_best") (.b b)
      let self' := if b then { self with bestScore := .fin score } else self
      (self', cacheNetInferExit { cached_net with history := h2 } self.useCaching,
        some ⟨y_test, y_pred⟩)

/-- `EpochScoring.on_train_end`: release the caches. -/
def EpochScoring.on_train_end (self : EpochScoring) : EpochScoring :=
  self._initialize_cache

/-! ## The training loop's event stream -/

/-- Lifecycle events the training loop drives into the callbacks.
`newEpoch`/`newBatch` are the loop's own history bookkeeping (opening
slots and recording the declared batch size); `batchEnd` carries the
opaque batch scorer's outcome for `BatchScoring`; `epochEnd` carries the
opaque epoch scorer's outcome for `EpochScoring`. -/
inductive Ev where
  | newEpoch
  | newBatch (train : Bool) (size : ℚ)
  | epochBegin (dsTrain dsValid : Option DS)
  | batchEnd (y : Target) (y_pred : Pred) (training : Bool) (scoreRes : Except Exc ℚ)
  | epochEnd (dsTrain dsValid : Option DS) (score : ℚ)
  | trainEnd

/-- The loop's own effect on the shared history (performed once per
event, before the callbacks are notified). -/
def loopEffect (net : Net) : Ev → Net
  | .newEpoch => { net with history := net.history.newEpoch }
  | .newBatch train sz =>
    let key := if train then "train_batch_size" else "valid_batch_size"
    { net with history := (net.history.newBatch).recordBatch key (.q sz) }
  | _ => net

/-- Dispatch one event into a `BatchScoring` instance (methods it does
not override are inherited no-ops). -/
def BatchScoring.handle (self : BatchScoring) (net : Net) :
    Ev → BatchScoring × Net × Option Exc
  | .batchEnd _ y_pred training scoreRes =>
    let (net', exc) := self.on_batch_end net training y_pred scoreRes
    (self, net', exc)
  | .epochEnd _ _ _ =>
    let (self', net') := self.on_epoch_end net
    (self', net', none)
  | _ => (self, net, none)

/-- Dispatch one event into an `EpochScoring` instance. -/
def EpochScoring.handle (self : EpochScoring) (net : Net) :
    Ev → EpochScoring × Net
  | .epochBegin dsT dsV => (self.on_epoch_begin dsT dsV, net)
  | .batchEnd y y_pred training _ => (self.on_batch_end y y_pred training, net)
  | .epochEnd dsT dsV score =>
    let (self', net', _) := self.on_epoch_end net dsT dsV score
    (self', net')
  | .trainEnd => (self.on_train_end, net)
  | _ => (self, net)

/-- Run a `BatchScoring` instance over an event stream; a propagated
exception aborts the run. -/
def BatchScoring.run (self : BatchScoring) (net : Net) :
    List Ev → BatchScoring × Net × Option Exc
  | [] => (self, net, none)
  | ev :: evs =>
    match self.handle (loopEffect net ev) ev with
    | (self', net', none) => self'.run net' evs
    | (self', net', some e) => (self', net', some e)

/-- Run an `EpochScoring` instance over an event stream. -/
def EpochScoring.run (self : EpochScoring) (net : Net) :
    List Ev → EpochScoring × Net
  | [] => (self, net)
  | ev :: evs =>
    let (self', net') := self.handle (loopEffect net ev) ev
    self'.run net' evs

/-- Run two `EpochScoring` instances attached to the same loop: each
event applies the loop effect once and then notifies both callbacks in
order. -/
def EpochScoring.runPair (self other : EpochScoring) (net : Net) :
    List Ev → EpochScoring × EpochScoring × Net
  | [] => (self, other, net)
  | ev :: evs =>
    let net0 := loopEffect net ev
    let (self', net1) := self.handle net0 ev
    let (other', net2) := other.handle net1 ev
    EpochScoring.runPair self' other' net2 evs

/-- Witness for C1 at a concrete net and three cached predictions. -/
theorem c1_cache_transparency_witness :
    ([(5 : ℚ), 6, 7].length = [(1 : ℚ), 2, 3].length) ∧
    ((∃ net', Net.callInferN
          (cacheNetInferEnter ⟨⟨[]⟩, none, (fun x => x)⟩ true [(1 : ℚ), 2, 3])
          [(5 : ℚ), 6, 7] = some ([(1 : ℚ), 2, 3], net') ∧
        cacheNetInferExit net' true = ⟨⟨[]⟩, none, (fun x => x)⟩) ∧
      (∀ (partialArgs : List ℚ) (res : List Pred) (net'' : Net),
        Net.callInferN
            (cacheNetInferEnter ⟨⟨[]⟩, none, (fun x => x)⟩ true [(1 : ℚ), 2, 3])
            partialArgs = some (res, net'') →
        cacheNetInferExit net'' true = ⟨⟨[]⟩, none, (fun x => x)⟩)) :=
  ⟨rfl, c1_cache_transparency ⟨[]⟩ (fun x => x) [(1 : ℚ), 2, 3] [(5 : ℚ), 6, 7] rfl⟩

/-- C10: with no explicit name, the history key after `initialize()` is
determined by the scoring specification — `"score"` when absent, the
string itself, the wrapped function's name for a `functools.partial`,
else the callable's name — and the improvement flag is recorded under
that key with `"_best"` appended (shown for both strategies with
comparison enabled). -/
theorem c10_name_resolution :
    (∀ (lib : Option Bool) (ot uc : Bool),
      (BatchScoring.initializeCb ⟨.noSpec, lib, ot, none, uc⟩).name_ = "score") ∧
    (∀ (s : String) (lib : Option Bool) (ot uc : Bool),
      (BatchScoring.initializeCb ⟨.str s, lib, ot, none, uc⟩).name_ = s) ∧
    (∀ (f : String) (lib : Option Bool) (ot uc : Bool),
      (BatchScoring.initializeCb ⟨.partialFn f, lib, ot, none, uc⟩).name_ = f) ∧
    (∀ (f : String) (lib : Option Bool) (ot uc : Bool),
      (BatchScoring.initializeCb ⟨.callable f, lib, ot, none, uc⟩).name_ = f) ∧
    (∀ (args : ScoringArgs) (tex : Target → Target),
      (EpochScoring.initializeCb args tex).name_ = ScoringBase._get_name args) ∧
    (∀ (nm : String) (lb : Bool) (best : XR) (tex : Target → Target)
        (yts : List Target) (yps : List Pred) (pl : Bool)
        (h : History) (f : ℚ → Pred) (dsv : DS) (score : ℚ),
      ∃ flag,
        ((EpochScoring.on_epoch_end ⟨some lb, false, true, nm, tex, best, yts, yps, pl⟩
            ⟨h, none, f⟩ none (some dsv) score).2.1).history =
          (h.record nm (.q score)).record (nm ++ "_best") (.b flag)) ∧
    (∀ (nm : String) (lb : Bool) (best : XR) (w s : ℚ) (f : ℚ → Pred),
      ∃ avg flag,
        ((BatchScoring.on_epoch_end ⟨some lb, false, true, nm, best⟩
            ⟨⟨[⟨[], [⟨[("valid_batch_size", .q w), (nm, .q s)]⟩]⟩]⟩, none, f⟩).2).history =
          ((⟨[⟨[], [⟨[("valid_batch_size", .q w), (nm, .q s)]⟩]⟩]⟩ : History).record
              nm (.q avg)).record (nm ++ "_best") (.b flag)) := by
  refine ⟨fun _ _ _ => rfl, fun _ _ _ _ => rfl, fun _ _ _ _ => rfl,
    fun _ _ _ _ => rfl, fun _ _ => rfl, ?_, ?_⟩
  · intro nm lb best tex yts yps pl h f dsv score
    cases lb with
    | false =>
      exact ⟨best.lt (XR.fin score), by
        simp [EpochScoring.on_epoch_end, ScoringBase._is_best_score,
          cacheNetInferEnter, cacheNetInferExit]⟩
    | true =>
      exact ⟨(XR.fin score).lt best, by
        simp [EpochScoring.on_epoch_end, ScoringBase._is_best_score,
          cacheNetInferEnter, cacheNetInferExit]⟩
  · intro nm lb best w s f
    refine ⟨BatchScoring.get_avg_score ⟨some lb, false, true, nm, best⟩
      ⟨[⟨[], [⟨[("valid_batch_size", .q w), (nm, .q s)]⟩]⟩]⟩, ?_⟩
    have hbv : History.batchValues
        ⟨[⟨[], [⟨[("valid_batch_size", .q w), (nm, .q s)]⟩]⟩]⟩ nm ≠ none := by
      simp only [History.batchValues, History.lastEpoch, History.lastOf]
      cases hb : nm == "valid_batch_size" <;>
        simp [List.lookup, List.filterMap, hb]
    cases lb with
    | false =>
      refine ⟨XR.lt best (.fin (BatchScoring.get_avg_score ⟨some false, false, true, nm, best⟩
        ⟨[⟨[], [⟨[("valid_batch_size", .q w), (nm, .q s)]⟩]⟩]⟩)), ?_⟩
      simp only [BatchScoring.on_epoch_end, ScoringBase._is_best_score]
      match hv : History.batchValues
          ⟨[⟨[], [⟨[("valid_batch_size", .q w), (nm, .q s)]⟩]⟩]⟩ nm with
      | none => exact absurd hv hbv
      | some vs => simp
    | true =>
      refine ⟨XR.lt (.fin (BatchScoring.get_avg_score ⟨some true, false, true, nm, best⟩
        ⟨[⟨[], [⟨[("valid_batch_size", .q w), (nm, .q s)]⟩]⟩]⟩)) best, ?_⟩
      simp only [BatchScoring.on_epoch_end, ScoringBase._is_best_score]
      match hv : History.batchValues
          ⟨[⟨[], [⟨[("valid_batch_size", .q w), (nm, .q s)]⟩]⟩]⟩ nm with
      | none => exact absurd hv hbv
      | some vs => simp

/-- C8: a batch event whose training flag differs from the strategy's
`on_train` leaves the whole callback state and the net (history
included) unchanged, for both strategies, and raises nothing. -/
theorem c8_phase_mismatch_noop (selfB : BatchScoring) (selfE : EpochScoring)
    (net netE : Net) (y : Target) (y_pred : Pred) (scoreRes : Except Exc ℚ) :
    selfB.handle net (.batchEnd y y_pred (!selfB.onTrain) scoreRes)
      = (selfB, net, none) ∧
    selfE.handle netE (.batchEnd y y_pred (!selfE.onTrain) scoreRes)
      = (selfE, netE) := by
  constructor
  · simp [BatchScoring.handle, BatchScoring.on_batch_end]
  · simp [EpochScoring.handle, EpochScoring.on_batch_end]

/-- C7: when no batch-level score under the strategy's name was recorded
this epoch (the history lookup fails), `BatchScoring.on_epoch_end` is a
complete no-op: state and history are returned unchanged. -/
theorem c7_missing_batch_score_noop (self : BatchScoring) (net : Net)
    (h : net.history.batchValues self.name_ = none) :
    self.on_epoch_end net = (self, net) := by
  simp [BatchScoring.on_epoch_end, h]

/-- Witness for C7: an empty history has no recorded batch score. -/
theorem c7_missing_batch_score_noop_witness :
    (Net.history ⟨⟨[]⟩, none, fun x => x⟩).batchValues "acc" = none ∧
    BatchScoring.on_epoch_end ⟨some true, false, true, "acc", .pinf⟩
        ⟨⟨[]⟩, none, fun x => x⟩
      = (⟨some true, false, true, "acc", .pinf⟩, ⟨⟨[]⟩, none, fun x => x⟩) :=
  ⟨rfl, c7_missing_batch_score_noop ⟨some true, false, true, "acc", .pinf⟩
    ⟨⟨[]⟩, none, fun x => x⟩ rfl⟩

/-- Counterexample to C2 as stated: a `KeyError` raised by the scoring
call itself does NOT propagate — the `try` block of
`BatchScoring.on_batch_end` wraps the scoring call too, so the
`except KeyError` swallows it (no exception leaves the call). -/
theorem c2_counterexample :
    (BatchScoring.on_batch_end ⟨some true, false, true, "acc", .pinf⟩
        ⟨⟨[]⟩, none, fun x => x⟩ false 1 (Except.error Exc.keyError)).2 = none := by
  rfl

/-- C2 (amended): on a phase-matching batch event, a `KeyError` raised
inside the guarded block — by the scoring call or the recording step —
is caught and treated as a silent skip (state and history unchanged, the
guard restored); any non-`KeyError` error propagates uncaught, with the
guard still restored and nothing recorded. -/
theorem c2_keyerror_swallowed_others_propagate (self : BatchScoring)
    (h : History) (f : ℚ → Pred) (y_pred : Pred) :
    self.on_batch_end ⟨h, none, f⟩ self.onTrain y_pred (.error .keyError)
      = (⟨h, none, f⟩, none) ∧
    self.on_batch_end ⟨h, none, f⟩ self.onTrain y_pred (.error .otherError)
      = (⟨h, none, f⟩, some .otherError) := by
  cases hc : self.useCaching <;>
    simp [BatchScoring.on_batch_end, cacheNetInferEnter, cacheNetInferExit, hc]

/-- In a history whose current epoch holds one batch per row, each batch
carrying its size under the validation size key and its score under
`nm`, the size/score query returns exactly the rows. -/
theorem batchPairs_of_rows (nm : String) (hnm : nm ≠ "valid_batch_size")
    (rows : List (ℚ × ℚ)) (recs : List (String × HVal)) :
    History.batchPairs
      ⟨[⟨recs, rows.map (fun r => ⟨[("valid_batch_size", .q r.1), (nm, .q r.2)]⟩)⟩]⟩
      "valid_batch_size" nm = rows := by
  have hb : (nm == "valid_batch_size") = false := by
    simp [beq_eq_false_iff_ne, hnm]
  simp only [History.batchPairs, History.lastEpoch, History.lastOf]
  induction rows with
  | nil => rfl
  | cons r rest ih =>
    simp only [List.map_cons, List.filterMap_cons, List.lookup, beq_self_eq_true, hb]
    simpa using ih

/-- Same setting: the batch-score query succeeds and yields the scores. -/
theorem batchValues_of_rows (nm : String) (hnm : nm ≠ "valid_batch_size")
    (rows : List (ℚ × ℚ)) (hne : rows ≠ []) (recs : List (String × HVal)) :
    History.batchValues
      ⟨[⟨recs, rows.map (fun r => ⟨[("valid_batch_size", .q r.1), (nm, .q r.2)]⟩)⟩]⟩
      nm = some (rows.map (fun r => .q r.2)) := by
  have hb : (nm == "valid_batch_size") = false := by
    simp [beq_eq_false_iff_ne, hnm]
  simp only [History.batchValues, History.lastEpoch, History.lastOf]
  have hf : ∀ (rs : List (ℚ × ℚ)),
      (rs.map (fun r => (⟨[("valid_batch_size", .q r.1), (nm, .q r.2)]⟩ : BatchRec))).filterMap
        (fun b => b.entries.lookup nm) = rs.map (fun r => .q r.2) := by
    intro rs
    induction rs with
    | nil => rfl
    | cons r rest ih =>
      simp only [List.map_cons, List.filterMap_cons, List.lookup, hb, beq_self_eq_true]
      simpa using ih
  rw [hf]
  cases rows with
  | nil => exact absurd rfl hne
  | cons r rest => simp

/-- Pointwise product of first and second components. -/
theorem zipWith_mul_map (rows : List (ℚ × ℚ)) :
    List.zipWith (· * ·) (rows.map Prod.fst) (rows.map Prod.snd)
      = rows.map (fun r => r.1 * r.2) := by
  induction rows with
  | nil => rfl
  | cons r rest ih => simp [ih]

/-- C3: for an epoch with at least one recorded batch score,
`BatchScoring.on_epoch_end` records as the epoch-level score the
batch-size-weighted mean of the recorded batch scores. -/
theorem c3_weighted_average (nm : String) (hnm : nm ≠ "valid_batch_size")
    (lib : Option Bool) (uc : Bool) (best : XR) (f : ℚ → Pred)
    (rows : List (ℚ × ℚ)) (hne : rows ≠ []) :
    ((BatchScoring.on_epoch_end ⟨lib, false, uc, nm, best⟩
        ⟨⟨[⟨[], rows.map (fun r => ⟨[("valid_batch_size", .q r.1), (nm, .q r.2)]⟩)⟩]⟩,
          none, f⟩).2).history.epochValues nm
      = [.q ((rows.map (fun r => r.1 * r.2)).sum / (rows.map Prod.fst).sum)] := by
  have havg : BatchScoring.get_avg_score ⟨lib, false, uc, nm, best⟩
      ⟨[⟨[], rows.map (fun r => ⟨[("valid_batch_size", .q r.1), (nm, .q r.2)]⟩)⟩]⟩
      = (rows.map (fun r => r.1 * r.2)).sum / (rows.map Prod.fst).sum := by
    simp only [BatchScoring.get_avg_score, Bool.false_eq_true, if_false,
      batchPairs_of_rows nm hnm rows, np_average, zipWith_mul_map]
  simp only [BatchScoring.on_epoch_end,
    batchValues_of_rows nm hnm rows hne, havg]
  cases his : ScoringBase._is_best_score lib best
      ((rows.map (fun r => r.1 * r.2)).sum / (rows.map Prod.fst).sum) with
  | none =>
    simp [History.epochValues, History.record, modifyLast, List.lookup]
  | some b =>
    simp [History.epochValues, History.record, modifyLast, List.lookup]

/-- Witness for C3: batch sizes `[2,3,5]` and scores `[0.1,0.2,0.3]`
give the recorded epoch score `0.23`. -/
theorem c3_weighted_average_witness :
    ("acc" ≠ "valid_batch_size") ∧
    ([((2:ℚ), (1:ℚ)/10), (3, 2/10), (5, 3/10)] ≠ ([] : List (ℚ × ℚ))) ∧
    ((BatchScoring.on_epoch_end ⟨some true, false, true, "acc", .pinf⟩
        ⟨⟨[⟨[], [((2:ℚ), (1:ℚ)/10), (3, 2/10), (5, 3/10)].map
            (fun r => ⟨[("valid_batch_size", .q r.1), ("acc", .q r.2)]⟩)⟩]⟩,
          none, fun x => x⟩).2).history.epochValues "acc" = [.q ((23:ℚ)/100)] :=
  ⟨by decide, by decide, by
    rw [c3_weighted_average "acc" (by decide) (some true) true .pinf (fun x => x)
      [((2:ℚ), (1:ℚ)/10), (3, 2/10), (5, 3/10)] (by decide)]
    norm_num⟩

/-- C4: the best-score tracker returns `None` when `lower_is_better` is
`None`, the strict comparison `current < running_best` when it is true
and `current > running_best` otherwise; the running best of a
lower-is-better strategy starts at `+inf`; and feeding the lower-is-better
`EpochScoring` pipeline the epoch scores `[0.5, 0.3, 0.4, 0.3]` records
the is-best flags `[True, True, False, False]` and leaves the running
best at `0.3`. -/
theorem c4_best_score_tracker :
    (∀ (best : XR) (cur : ℚ), ScoringBase._is_best_score none best cur = none) ∧
    (∀ (best : XR) (cur : ℚ),
      ScoringBase._is_best_score (some true) best cur = some ((XR.fin cur).lt best)) ∧
    (∀ (best : XR) (cur : ℚ),
      ScoringBase._is_best_score (some false) best cur = some (best.lt (XR.fin cur))) ∧
    initBestScore (some true) = .pinf ∧
    ((EpochScoring.run
        (EpochScoring.initializeCb ⟨.noSpec, some true, false, none, true⟩ (fun y => y))
        ⟨⟨[]⟩, none, fun x => x⟩
        ([mkRat 1 2, mkRat 3 10, mkRat 4 10, mkRat 3 10].flatMap (fun s =>
          [Ev.newEpoch, .epochBegin none (some .raw),
            .epochEnd none (some .raw) s]))).2.history.epochValues "score_best"
      = [.b true, .b true, .b false, .b false]) ∧
    (EpochScoring.run
        (EpochScoring.initializeCb ⟨.noSpec, some true, false, none, true⟩ (fun y => y))
        ⟨⟨[]⟩, none, fun x => x⟩
        ([mkRat 1 2, mkRat 3 10, mkRat 4 10, mkRat 3 10].flatMap (fun s =>
          [Ev.newEpoch, .epochBegin none (some .raw),
            .epochEnd none (some .raw) s]))).1.bestScore = .fin (mkRat 3 10) := by
  refine ⟨fun _ _ => rfl, fun _ _ => rfl, fun _ _ => rfl, rfl, ?_, ?_⟩ <;> decide

/-- The callback-state component of `EpochScoring.on_epoch_end` does not
depend on the net: the instance's own caches, best score and flags are
driven only by its configuration and the event data. -/
theorem on_epoch_end_cb_net_independent (self : EpochScoring) (net net' : Net)
    (dsT dsV : Option DS) (score : ℚ) :
    (self.on_epoch_end net dsT dsV score).1 = (self.on_epoch_end net' dsT dsV score).1 := by
  simp only [EpochScoring.on_epoch_end]
  split
  · rfl
  · split <;> rfl

/-- The callback-state component of `EpochScoring.handle` does not depend
on the net. -/
theorem handle_cb_net_independent (self : EpochScoring) (net net' : Net) (ev : Ev) :
    (self.handle net ev).1 = (self.handle net' ev).1 := by
  cases ev with
  | epochEnd dsT dsV score =>
    have h := on_epoch_end_cb_net_independent self net net' dsT dsV score
    simp only [EpochScoring.handle]
    rcases h1 : self.on_epoch_end net dsT dsV score with ⟨a, b, c⟩
    rcases h2 : self.on_epoch_end net' dsT dsV score with ⟨a', b', c'⟩
    rw [h1, h2] at h
    simpa using h
  | newEpoch => rfl
  | newBatch train sz => rfl
  | epochBegin dsT dsV => rfl
  | batchEnd y yp tr sr => rfl
  | trainEnd => rfl

/-- The callback-state component of a whole `EpochScoring` run does not
depend on the initial net. -/
theorem run_cb_net_independent (evs : List Ev) :
    ∀ (self : EpochScoring) (net net' : Net),
      (self.run net evs).1 = (self.run net' evs).1 := by
  induction evs with
  | nil => intro self net net'; rfl
  | cons ev evs ih =>
    intro self net net'
    simp only [EpochScoring.run]
    rcases h1 : self.handle (loopEffect net ev) ev with ⟨a, b⟩
    rcases h2 : self.handle (loopEffect net' ev) ev with ⟨a', b'⟩
    have ha : a = a' := by
      have := handle_cb_net_independent self (loopEffect net ev) (loopEffect net' ev) ev
      rw [h1, h2] at this
      simpa using this
    subst ha
    exact ih a b b'

/-- C5: two `EpochScoring` instances attached to the same run do not
interfere: after any event stream, each instance's full state — its
prediction cache `y_preds_`, its target cache `y_trues_`, its running
best — is exactly what it would be if it were the only instance
attached. Events processed by one instance never touch the other's
caches. -/
theorem c5_cache_isolation : ∀ (evs : List Ev) (cb1 cb2 : EpochScoring) (net : Net),
    (EpochScoring.runPair cb1 cb2 net evs).1 = (cb1.run net evs).1 ∧
    (EpochScoring.runPair cb1 cb2 net evs).2.1 = (cb2.run net evs).1 := by
  intro evs
  induction evs with
  | nil => intro cb1 cb2 net; exact ⟨rfl, rfl⟩
  | cons ev evs ih =>
    intro cb1 cb2 net
    simp only [EpochScoring.runPair, EpochScoring.run]
    rcases h1 : cb1.handle (loopEffect net ev) ev with ⟨a1, n1⟩
    rcases h2 : cb2.handle n1 ev with ⟨a2, n2⟩
    rcases h2' : cb2.handle (loopEffect net ev) ev with ⟨a2', n2'⟩
    have ha2 : a2 = a2' := by
      have := handle_cb_net_independent cb2 n1 (loopEffect net ev) ev
      rw [h2, h2'] at this
      simpa using this
    constructor
    · calc (EpochScoring.runPair a1 a2 n2 evs).1
          = (a1.run n2 evs).1 := (ih a1 a2 n2).1
        _ = (a1.run n1 evs).1 := run_cb_net_independent evs a1 n2 n1
    · calc (EpochScoring.runPair a1 a2 n2 evs).2.1
          = (a2.run n2 evs).1 := (ih a1 a2 n2).2
        _ = (a2'.run n2' evs).1 := by
            rw [ha2]; exact run_cb_net_independent evs a2' n2 n2'

/-- Feed a sequence of batch events `(y, y_pred, training)` into an
`EpochScoring` instance. -/
def applyBatches (self : EpochScoring) : List (Target × Pred × Bool) → EpochScoring
  | [] => self
  | (y, yp, tr) :: rest => applyBatches (self.on_batch_end y yp tr) rest

/-- With the placeholder flag set, batch events never touch the target
cache and never clear the flag. -/
theorem applyBatches_placeholder (batches : List (Target × Pred × Bool)) :
    ∀ (self : EpochScoring), self.y_is_placeholder_ = true →
      (applyBatches self batches).y_is_placeholder_ = true ∧
      (applyBatches self batches).y_trues_ = self.y_trues_ := by
  induction batches with
  | nil => intro self h; exact ⟨h, rfl⟩
  | cons b rest ih =>
    intro self h
    rcases b with ⟨y, yp, tr⟩
    simp only [applyBatches]
    have hstep : (self.on_batch_end y yp tr).y_is_placeholder_ = true ∧
        (self.on_batch_end y yp tr).y_trues_ = self.y_trues_ := by
      simp only [EpochScoring.on_batch_end]
      split
      · exact ⟨h, rfl⟩
      · simp [h]
    obtain ⟨h1, h2⟩ := hstep
    obtain ⟨h3, h4⟩ := ih (self.on_batch_end y yp tr) h1
    exact ⟨h3, h4.trans h2⟩

/-- Batch events never change an instance's configuration fields. -/
theorem applyBatches_config (batches : List (Target × Pred × Bool)) :
    ∀ (self : EpochScoring),
      (applyBatches self batches).onTrain = self.onTrain ∧
      (applyBatches self batches).useCaching = self.useCaching := by
  induction batches with
  | nil => intro self; exact ⟨rfl, rfl⟩
  | cons b rest ih =>
    intro self
    rcases b with ⟨y, yp, tr⟩
    simp only [applyBatches]
    have hstep : (self.on_batch_end y yp tr).onTrain = self.onTrain ∧
        (self.on_batch_end y yp tr).useCaching = self.useCaching := by
      simp only [EpochScoring.on_batch_end]
      split
      · exact ⟨rfl, rfl⟩
      · split <;> exact ⟨rfl, rfl⟩
    obtain ⟨h1, h2⟩ := hstep
    obtain ⟨h3, h4⟩ := ih (self.on_batch_end y yp tr)
    exact ⟨h3.trans h1, h4.trans h2⟩

/-- C6: when the active dataset declares no targets (a skorch dataset
with `y = None`), the per-epoch strategy appends no target object to its
target cache on any batch event of the epoch, and the target value
passed to the scoring call at epoch end is `None`. -/
theorem c6_placeholder_targets (lib : Option Bool) (uc : Bool) (nm : String)
    (tex : Target → Target) (best : XR) (yts0 : List Target) (yps0 : List Pred)
    (pl0 : Bool) (dsT dsT2 : Option DS) (batches : List (Target × Pred × Bool))
    (net : Net) (score : ℚ) :
    (applyBatches
        (EpochScoring.on_epoch_begin ⟨lib, false, uc, nm, tex, best, yts0, yps0, pl0⟩
          dsT (some (.skorch none))) batches).y_trues_ = [] ∧
    ∃ yp,
      ((applyBatches
          (EpochScoring.on_epoch_begin ⟨lib, false, uc, nm, tex, best, yts0, yps0, pl0⟩
            dsT (some (.skorch none))) batches).on_epoch_end net dsT2
        (some (.skorch none)) score).2.2 = some ⟨none, yp⟩ := by
  have hbeg :
      (EpochScoring.on_epoch_begin ⟨lib, false, uc, nm, tex, best, yts0, yps0, pl0⟩
        dsT (some (.skorch none))).y_is_placeholder_ = true ∧
      (EpochScoring.on_epoch_begin ⟨lib, false, uc, nm, tex, best, yts0, yps0, pl0⟩
        dsT (some (.skorch none))).y_trues_ = [] := by
    constructor <;> rfl
  obtain ⟨hpl, htr⟩ := applyBatches_placeholder batches _ hbeg.1
  have hytr : (applyBatches
      (EpochScoring.on_epoch_begin ⟨lib, false, uc, nm, tex, best, yts0, yps0, pl0⟩
        dsT (some (.skorch none))) batches).y_trues_ = [] := htr.trans hbeg.2
  refine ⟨hytr, ?_⟩
  set cb := applyBatches
    (EpochScoring.on_epoch_begin ⟨lib, false, uc, nm, tex, best, yts0, yps0, pl0⟩
      dsT (some (.skorch none))) batches with hcb
  obtain ⟨hot, -⟩ := applyBatches_config batches
    (EpochScoring.on_epoch_begin ⟨lib, false, uc, nm, tex, best, yts0, yps0, pl0⟩
      dsT (some (.skorch none)))
  rw [← hcb] at hot
  have hot2 : cb.onTrain = false := hot.trans rfl
  cases hcu : cb.useCaching with
  | true =>
    refine ⟨cb.y_preds_, ?_⟩
    simp only [EpochScoring.on_epoch_end, hot2, hcu, hytr, Bool.false_eq_true,
      if_false, if_true, List.map_nil, List.isEmpty_nil, Option.isSome_some]
    cases his : ScoringBase._is_best_score cb.lowerIsBetter cb.bestScore score with
    | none => simp
    | some b => simp
  | false =>
    refine ⟨[], ?_⟩
    simp only [EpochScoring.on_epoch_end, hot2, hcu, Bool.false_eq_true,
      if_false, Option.map_none]
    cases his : ScoringBase._is_best_score cb.lowerIsBetter cb.bestScore score with
    | none => simp
    | some b => simp

/-! ## Key-absence invariants of the history -/

theorem best_ne_self (nm : String) : nm ++ "_best" ≠ nm := by
  intro h
  have hlen := congrArg String.length h
  rw [String.length_append] at hlen
  have h5 : ("_best" : String).length = 5 := rfl
  omega

theorem best_ne_train (nm : String) : nm ++ "_best" ≠ "train_batch_size" := by
  intro h
  have hd := congrArg String.data h
  rw [String.data_append] at hd
  have := congrArg List.getLast? hd
  simp at this

theorem best_ne_valid (nm : String) : nm ++ "_best" ≠ "valid_batch_size" := by
  intro h
  have hd := congrArg String.data h
  rw [String.data_append] at hd
  have := congrArg List.getLast? hd
  simp at this

theorem lookup_append_none {β : Type} (k : String) (l1 l2 : List (String × β))
    (h1 : List.lookup k l1 = none) (h2 : List.lookup k l2 = none) :
    List.lookup k (l1 ++ l2) = none := by
  induction l1 with
  | nil => simpa using h2
  | cons p l1 ih =>
    rcases p with ⟨k', v⟩
    simp only [List.cons_append, List.lookup] at h1 ⊢
    cases hkk : (k == k') with
    | true => rw [hkk] at h1; simp at h1
    | false => rw [hkk] at h1; exact ih h1

theorem lookup_singleton_none {β : Type} (k k' : String) (v : β) (h : k ≠ k') :
    List.lookup k [(k', v)] = none := by
  have hb : (k == k') = false := by simp [beq_eq_false_iff_ne, h]
  simp [List.lookup, hb]

theorem mem_modifyLast {α : Type} (f : α → α) :
    ∀ (l : List α) (x : α), x ∈ modifyLast f l → x ∈ l ∨ ∃ y ∈ l, x = f y := by
  intro l
  induction l with
  | nil => intro x hx; simp [modifyLast] at hx
  | cons a l ih =>
    intro x hx
    cases l with
    | nil =>
      simp [modifyLast] at hx
      exact Or.inr ⟨a, by simp, hx⟩
    | cons b l2 =>
      simp only [modifyLast, List.mem_cons] at hx
      rcases hx with hx | hx
      · exact Or.inl (by simp [hx])
      · rcases ih x hx with h | ⟨y, hy, hxy⟩
        · exact Or.inl (List.mem_cons_of_mem a h)
        · exact Or.inr ⟨y, List.mem_cons_of_mem a hy, hxy⟩

theorem hasNoKey_newEpoch (h : History) (k : String) (hk : h.hasNoKey k) :
    h.newEpoch.hasNoKey k := by
  intro e he
  simp only [History.newEpoch, List.mem_append, List.mem_singleton] at he
  rcases he with he | he
  · exact hk e he
  · subst he
    exact ⟨rfl, by intro b hb; simp at hb⟩

theorem hasNoKey_newBatch (h : History) (k : String) (hk : h.hasNoKey k) :
    h.newBatch.hasNoKey k := by
  intro e he
  simp only [History.newBatch] at he
  rcases mem_modifyLast _ _ e he with he' | ⟨y, hy, hey⟩
  · exact hk e he'
  · subst hey
    obtain ⟨h1, h2⟩ := hk y hy
    refine ⟨h1, ?_⟩
    intro b hb
    rcases List.mem_append.mp hb with hb' | hb'
    · exact h2 b hb'
    · simp only [List.mem_singleton] at hb'
      subst hb'
      rfl

theorem hasNoKey_record (h : History) (k k' : String) (v : HVal)
    (hk : h.hasNoKey k) (hne : k ≠ k') : (h.record k' v).hasNoKey k := by
  intro e he
  simp only [History.record] at he
  rcases mem_modifyLast _ _ e he with he' | ⟨y, hy, hey⟩
  · exact hk e he'
  · subst hey
    obtain ⟨h1, h2⟩ := hk y hy
    exact ⟨lookup_append_none k _ _ h1 (lookup_singleton_none k k' v hne),
      fun b hb => h2 b hb⟩

theorem hasNoKey_recordBatch (h : History) (k k' : String) (v : HVal)
    (hk : h.hasNoKey k) (hne : k ≠ k') : (h.recordBatch k' v).hasNoKey k := by
  intro e he
  simp only [History.recordBatch] at he
  rcases mem_modifyLast _ _ e he with he' | ⟨y, hy, hey⟩
  · exact hk e he'
  · subst hey
    obtain ⟨h1, h2⟩ := hk y hy
    refine ⟨h1, ?_⟩
    intro b hb
    rcases mem_modifyLast _ _ b hb with hb' | ⟨c, hc, hbc⟩
    · exact h2 b hb'
    · subst hbc
      exact lookup_append_none k _ _ (h2 c hc) (lookup_singleton_none k k' v hne)

/-- `BatchScoring.on_batch_end` writes only under the callback's own
name: any absent key other than that name stays absent. -/
theorem bs_on_batch_end_keeps_noKey (self : BatchScoring) (net : Net) (tr : Bool)
    (yp : Pred) (sr : Except Exc ℚ) (k : String)
    (hk : net.history.hasNoKey k) (hne : k ≠ self.name_) :
    ((self.on_batch_end net tr yp sr).1).history.hasNoKey k := by
  simp only [BatchScoring.on_batch_end]
  split
  · exact hk
  · cases sr with
    | ok s =>
      cases hu : self.useCaching <;>
        simp only [cacheNetInferEnter, cacheNetInferExit, Bool.false_eq_true,
          if_false, if_true] <;>
        exact hasNoKey_recordBatch _ _ _ _ hk hne
    | error e =>
      cases e <;>
        (cases hu : self.useCaching <;>
          simp only [cacheNetInferEnter, cacheNetInferExit, Bool.false_eq_true,
            if_false, if_true] <;>
          exact hk)

/-- With comparison disabled, `BatchScoring.on_epoch_end` leaves the
callback untouched and writes only the epoch scalar under its name. -/
theorem bs_on_epoch_end_noBest (self : BatchScoring) (net : Net)
    (hlib : self.lowerIsBetter = none) (k : String)
    (hk : net.history.hasNoKey k) (hne : k ≠ self.name_) :
    ((self.on_epoch_end net).2).history.hasNoKey k ∧
    (self.on_epoch_end net).1 = self := by
  constructor
  · simp only [BatchScoring.on_epoch_end, hlib, ScoringBase._is_best_score]
    split
    · exact hk
    · simp only [reduceCtorEq, if_false]
      exact hasNoKey_record _ _ _ _ hk hne
  · simp only [BatchScoring.on_epoch_end, hlib, ScoringBase._is_best_score]
    split
    · rfl
    · simp

/-- One loop event through a disabled-comparison `BatchScoring` keeps
the configuration and never introduces the protected key. -/
theorem bs_step_noBest (self : BatchScoring) (net : Net) (ev : Ev)
    (hlib : self.lowerIsBetter = none)
    (hk : net.history.hasNoKey (self.name_ ++ "_best")) :
    (self.handle (loopEffect net ev) ev).1.lowerIsBetter = none ∧
    (self.handle (loopEffect net ev) ev).1.name_ = self.name_ ∧
    ((self.handle (loopEffect net ev) ev).2.1).history.hasNoKey (self.name_ ++ "_best") := by
  cases ev with
  | newEpoch => exact ⟨hlib, rfl, hasNoKey_newEpoch _ _ hk⟩
  | newBatch train sz =>
    refine ⟨hlib, rfl, ?_⟩
    cases train with
    | true =>
      exact hasNoKey_recordBatch _ _ _ _ (hasNoKey_newBatch _ _ hk) (best_ne_train _)
    | false =>
      exact hasNoKey_recordBatch _ _ _ _ (hasNoKey_newBatch _ _ hk) (best_ne_valid _)
  | epochBegin dsT dsV => exact ⟨hlib, rfl, hk⟩
  | trainEnd => exact ⟨hlib, rfl, hk⟩
  | batchEnd y yp tr sr =>
    refine ⟨hlib, rfl, ?_⟩
    exact bs_on_batch_end_keeps_noKey self net tr yp sr _ hk (best_ne_self _)
  | epochEnd dsT dsV score =>
    obtain ⟨hhist, hself⟩ :=
      bs_on_epoch_end_noBest self net hlib _ hk (best_ne_self _)
    simp only [BatchScoring.handle, loopEffect]
    rcases hoe : self.on_epoch_end net with ⟨s', n'⟩
    rw [hoe] at hhist hself
    have hs : s' = self := hself
    subst hs
    exact ⟨hlib, rfl, hhist⟩

/-- Over a whole run: with comparison disabled, `BatchScoring` never
writes the protected key. -/
theorem bs_run_noBest (evs : List Ev) : ∀ (self : BatchScoring) (net : Net),
    self.lowerIsBetter = none →
    net.history.hasNoKey (self.name_ ++ "_best") →
    ((self.run net evs).2.1).history.hasNoKey (self.name_ ++ "_best") := by
  induction evs with
  | nil => intro self net _ hk; exact hk
  | cons ev evs ih =>
    intro self net hlib hk
    obtain ⟨h1, h2, h3⟩ := bs_step_noBest self net ev hlib hk
    simp only [BatchScoring.run]
    rcases hh : self.handle (loopEffect net ev) ev with ⟨s', n', exc⟩
    rw [hh] at h1 h2 h3
    cases exc with
    | none =>
      have := ih s' n' h1 (by rw [h2]; exact h3)
      rw [h2] at this
      exact this
    | some e => exact h3

/-- `EpochScoring.on_batch_end` keeps the configuration fields. -/
theorem es_on_batch_end_config (self : EpochScoring) (y : Target) (yp : Pred)
    (tr : Bool) :
    (self.on_batch_end y yp tr).lowerIsBetter = self.lowerIsBetter ∧
    (self.on_batch_end y yp tr).name_ = self.name_ := by
  simp only [EpochScoring.on_batch_end]
  split
  · exact ⟨rfl, rfl⟩
  · split <;> exact ⟨rfl, rfl⟩

/-- `EpochScoring.on_epoch_end` keeps the configuration fields. -/
theorem es_on_epoch_end_config (self : EpochScoring) (net : Net)
    (dsT dsV : Option DS) (score : ℚ) :
    (self.on_epoch_end net dsT dsV score).1.lowerIsBetter = self.lowerIsBetter ∧
    (self.on_epoch_end net dsT dsV score).1.name_ = self.name_ := by
  simp only [EpochScoring.on_epoch_end]
  split
  · exact ⟨rfl, rfl⟩
  · split
    · exact ⟨rfl, rfl⟩
    · split <;> exact ⟨rfl, rfl⟩

/-- With comparison disabled, `EpochScoring.on_epoch_end` writes only the
epoch scalar under its name. -/
theorem es_on_epoch_end_noBest (self : EpochScoring) (net : Net)
    (dsT dsV : Option DS) (score : ℚ) (hlib : self.lowerIsBetter = none)
    (k : String) (hk : net.history.hasNoKey k) (hne : k ≠ self.name_) :
    ((self.on_epoch_end net dsT dsV score).2.1).history.hasNoKey k := by
  simp only [EpochScoring.on_epoch_end, hlib, ScoringBase._is_best_score]
  split
  · exact hk
  · cases hu : self.useCaching <;>
      simp only [cacheNetInferEnter, cacheNetInferExit, Bool.false_eq_true,
        if_false, if_true] <;>
      exact hasNoKey_record _ _ _ _ hk hne

/-- One loop event through a disabled-comparison `EpochScoring` keeps
the configuration and never introduces the protected key. -/
theorem es_step_noBest (self : EpochScoring) (net : Net) (ev : Ev)
    (hlib : self.lowerIsBetter = none)
    (hk : net.history.hasNoKey (self.name_ ++ "_best")) :
    (self.handle (loopEffect net ev) ev).1.lowerIsBetter = none ∧
    (self.handle (loopEffect net ev) ev).1.name_ = self.name_ ∧
    ((self.handle (loopEffect net ev) ev).2).history.hasNoKey (self.name_ ++ "_best") := by
  cases ev with
  | newEpoch => exact ⟨hlib, rfl, hasNoKey_newEpoch _ _ hk⟩
  | newBatch train sz =>
    refine ⟨hlib, rfl, ?_⟩
    cases train with
    | true =>
      exact hasNoKey_recordBatch _ _ _ _ (hasNoKey_newBatch _ _ hk) (best_ne_train _)
    | false =>
      exact hasNoKey_recordBatch _ _ _ _ (hasNoKey_newBatch _ _ hk) (best_ne_valid _)
  | epochBegin dsT dsV => exact ⟨hlib, rfl, hk⟩
  | trainEnd => exact ⟨hlib, rfl, hk⟩
  | batchEnd y yp tr sr =>
    obtain ⟨h1, h2⟩ := es_on_batch_end_config self y yp tr
    exact ⟨h1.trans hlib, h2, hk⟩
  | epochEnd dsT dsV score =>
    obtain ⟨h1, h2⟩ := es_on_epoch_end_config self net dsT dsV score
    have h3 := es_on_epoch_end_noBest self net dsT dsV score hlib _ hk (best_ne_self _)
    simp only [EpochScoring.handle, loopEffect]
    rcases hoe : self.on_epoch_end net dsT dsV score with ⟨s', n', c⟩
    rw [hoe] at h1 h2 h3
    exact ⟨h1.trans hlib, h2, h3⟩

/-- Over a whole run: with comparison disabled, `EpochScoring` never
writes the protected key. -/
theorem es_run_noBest (evs : List Ev) : ∀ (self : EpochScoring) (net : Net),
    self.lowerIsBetter = none →
    net.history.hasNoKey (self.name_ ++ "_best") →
    ((self.run net evs).2).history.hasNoKey (self.name_ ++ "_best") := by
  induction evs with
  | nil => intro self net _ hk; exact hk
  | cons ev evs ih =>
    intro self net hlib hk
    obtain ⟨h1, h2, h3⟩ := es_step_noBest self net ev hlib hk
    simp only [EpochScoring.run]
    rcases hh : self.handle (loopEffect net ev) ev with ⟨s', n'⟩
    rw [hh] at h1 h2 h3
    have := ih s' n' h1 (by rw [h2]; exact h3)
    rw [h2] at this
    exact this

/-- C9: for a strategy constructed with `lower_is_better=None`, no entry
under the key `<name>_best` is ever written into the history by either
strategy, over any event stream (any scores, any phases, any datasets). -/
theorem c9_no_best_flag_when_disabled
    (ot uc : Bool) (nm : String) (bestB : XR)
    (h0 : History) (d0 : Option (List Pred)) (f0 : ℚ → Pred)
    (ot2 uc2 : Bool) (nm2 : String) (tex : Target → Target) (bestE : XR)
    (yts : List Target) (yps : List Pred) (pl : Bool)
    (h1 : History) (d1 : Option (List Pred)) (f1 : ℚ → Pred)
    (evs evs2 : List Ev)
    (hkB : h0.hasNoKey (nm ++ "_best")) (hkE : h1.hasNoKey (nm2 ++ "_best")) :
    ((BatchScoring.run ⟨none, ot, uc, nm, bestB⟩ ⟨h0, d0, f0⟩ evs).2.1).history.hasNoKey
      (nm ++ "_best") ∧
    ((EpochScoring.run ⟨none, ot2, uc2, nm2, tex, bestE, yts, yps, pl⟩ ⟨h1, d1, f1⟩
        evs2).2).history.hasNoKey (nm2 ++ "_best") :=
  ⟨bs_run_noBest evs ⟨none, ot, uc, nm, bestB⟩ ⟨h0, d0, f0⟩ rfl hkB,
    es_run_noBest evs2 ⟨none, ot2, uc2, nm2, tex, bestE, yts, yps, pl⟩ ⟨h1, d1, f1⟩ rfl hkE⟩

/-- Witness for C9 on a concrete run: one epoch with one scored batch for
the per-batch strategy, one scored epoch for the per-epoch strategy. -/
theorem c9_no_best_flag_when_disabled_witness :
    (History.hasNoKey ⟨[]⟩ ("loss" ++ "_best")) ∧
    (History.hasNoKey ⟨[]⟩ ("score" ++ "_best")) ∧
    (((BatchScoring.run ⟨none, false, true, "loss", .ninf⟩ ⟨⟨[]⟩, none, fun x => x⟩
        [.newEpoch, .newBatch false 2, .batchEnd [] 1 false (.ok 1),
          .epochEnd none none 0]).2.1).history.hasNoKey ("loss" ++ "_best") ∧
      ((EpochScoring.run ⟨none, false, true, "score", (fun y => y), .ninf, [], [], false⟩
          ⟨⟨[]⟩, none, fun x => x⟩
          [.newEpoch, .epochBegin none (some .raw),
            .epochEnd none (some .raw) 1]).2).history.hasNoKey ("score" ++ "_best")) :=
  ⟨by decide, by decide,
    c9_no_best_flag_when_disabled false true "loss" .ninf ⟨[]⟩ none (fun x => x)
      false true "score" (fun y => y) .ninf [] [] false ⟨[]⟩ none (fun x => x)
      [.newEpoch, .newBatch false 2, .batchEnd [] 1 false (.ok 1), .epochEnd none none 0]
      [.newEpoch, .epochBegin none (some .raw), .epochEnd none (some .raw) 1]
      (by decide) (by decide)⟩

end SkorchScoring
